import Mathlib

/-!
Verification of the authorization-record generator (`kg.py`).

The pure integer and string logic of the source is embedded directly.  The two
external collaborators (the DSA signature primitive of the `cryptography`
package and the `randint` random source) are modelled as explicit parameters,
following the spec's capability-interface description (spec section 9).
-/

set_option maxRecDepth 4000

/-! ## Checksum engine (kg.py lines 40-61) -/

/-- The checksum nibble computed inside `fix_group_checksum` (kg.py lines
41-46): specific bit fields of `n` XORed together with the group number. -/
def group_csum (group_number : Nat) (n : Nat) : Nat :=
  (n >>> 4 &&& 0xf) ^^^ (n >>> 5 &&& 0x8) ^^^ (n >>> 9 &&& 0x7) ^^^
    (n >>> 11 &&& 0xe) ^^^ (n >>> 15 &&& 0x1) ^^^ group_number

/-- Embeds `fix_group_checksum` (kg.py lines 40-47): replace the low nibble of
`n` with the checksum nibble.  The source applies no `&&& 0xf` mask to the
checksum before OR-ing it in. -/
def fix_group_checksum (group_number : Nat) (n : Nat) : Nat :=
  n &&& 0xfff0 ||| group_csum group_number n

/-- One round of the inner CRC loop (kg.py lines 58-60): shift left and, when
bit 16 of the shifted value is set, XOR in the polynomial 0x8005.  The source
does not mask the register here. -/
def crcRound (r : Nat) : Nat :=
  let r' := r <<< 1
  if r' &&& 0x10000 ≠ 0 then r' ^^^ 0x8005 else r'

/-- The source's `for _ in range(8)` inner loop: `n` unmasked CRC rounds. -/
def crcRounds : Nat → Nat → Nat
  | 0, r => r
  | n + 1, r => crcRounds n (crcRound r)

/-- Byte extracted at iteration `i` of the outer loop (kg.py lines 53-54):
`v = groups[i // 4] >> (i % 4 * 8) & 0xff`. -/
def crcByte (groups : List Nat) (i : Nat) : Nat :=
  groups.getD (i / 4) 0 >>> (i % 4 * 8) &&& 0xff

/-- Embeds `overall_checksum` (kg.py lines 50-61): 20 byte-feeding iterations of
8 CRC rounds each, the register being masked to 16 bits only once, at the very
end. -/
def overall_checksum (groups : List Nat) : Nat :=
  ((List.range 20).foldl (fun r i => crcRounds 8 (r ^^^ crcByte groups i <<< 8)) 0) &&& 0xffff

/-- One CRC round as the spec (section 4.1) words it: the register is masked to
16 bits after every round. -/
def crcRoundMasked (r : Nat) : Nat := crcRound r &&& 0xffff

/-- The spec's per-round-masked inner loop. -/
def crcRoundsMasked : Nat → Nat → Nat
  | 0, r => r
  | n + 1, r => crcRoundsMasked n (crcRoundMasked r)

/-- The spec's (section 4.1) reference formulation of the overall checksum:
identical byte-extraction order, but the 16-bit mask is applied after every
round, and the final register is masked on return. -/
def overall_checksum_spec (groups : List Nat) : Nat :=
  ((List.range 20).foldl (fun r i => crcRoundsMasked 8 (r ^^^ crcByte groups i <<< 8)) 0) &&& 0xffff

/-! ## Hexadecimal rendering (Python `"{:0wX}".format`) -/

/-- Uppercase hexadecimal digit for a value below 16, as Python's `X` format
produces. -/
def hexDigit (n : Nat) : Char :=
  if n < 10 then Char.ofNat (48 + n) else Char.ofNat (55 + n)

/-- Fuel-driven digit extraction behind `hexChars`; the fuel always suffices
because `n / 16 < n` for `n ≥ 16`. -/
def hexCharsAux : Nat → Nat → List Char
  | 0, _ => []
  | fuel + 1, n =>
    if n < 16 then [hexDigit n] else hexCharsAux fuel (n / 16) ++ [hexDigit (n % 16)]

/-- Uppercase hexadecimal digit string (as a character list) of `n`, most
significant digit first, without leading zeros, as Python's `X` format
produces. -/
def hexChars (n : Nat) : List Char := hexCharsAux (n + 1) n

/-- Python's `"{:0wX}".format(n)`: the uppercase hexadecimal digits of `n`,
zero-padded on the left to a minimum width `w` (wider when `n` needs more
digits). -/
def hexPad (w : Nat) (n : Nat) : String :=
  String.mk (List.replicate (w - (hexChars n).length) '0' ++ hexChars n)

/-! ## Serial synthesizer (kg.py lines 64-79) -/

/-- The five serial groups after the source's fix-up loop (kg.py lines 71-77),
as a function of the five `randint` outcomes `r0`..`r4`. -/
def serial_groups (r0 r1 r2 r3 r4 : Nat) : List Nat :=
  [fix_group_checksum 0 r0, fix_group_checksum 1 r1, fix_group_checksum 2 r2,
   fix_group_checksum 3 r3, fix_group_checksum 4 r4]

/-- Embeds `random_serial` (kg.py lines 64-79) with the five `randint` outcomes
made explicit parameters: fix up each group's checksum nibble, append the
overall checksum as a sixth group, render as dash-separated 4-digit groups. -/
def random_serial (r0 r1 r2 r3 r4 : Nat) : String :=
  let groups := serial_groups r0 r1 r2 r3 r4
  let d := overall_checksum groups
  hexPad 4 (groups.getD 0 0) ++ "-" ++ hexPad 4 (groups.getD 1 0) ++ "-" ++
    hexPad 4 (groups.getD 2 0) ++ "-" ++ hexPad 4 (groups.getD 3 0) ++ "-" ++
    hexPad 4 (groups.getD 4 0) ++ "-" ++ hexPad 4 d

/-! ## Signing adapter (kg.py lines 32-37) -/

/-- Modelled from the spec: the DSA signature primitive (`k.sign` with SHA1
followed by `decode_dss_signature`, both from the external `cryptography`
package, not part of this repository) is abstracted as a function `sign_rs`
from the message string to the integer pair `(r, s)`, per spec section 9's
capability interface; `key_size` mirrors the key's reported bit length. -/
structure DSAPrivateKey where
  key_size : Nat
  sign_rs : String → Nat × Nat

/-- Embeds `sign` (kg.py lines 32-37).  The `assert k.key_size == 1024` is
modelled as returning `none` (a fatal, unrecoverable error) when the size is
wrong; on success the result is `r` then `s`, each rendered as 40 zero-padded
uppercase hexadecimal digits. -/
def sign (k : DSAPrivateKey) (m : String) : Option String :=
  if k.key_size = 1024 then
    some (hexPad 40 (k.sign_rs m).1 ++ hexPad 40 (k.sign_rs m).2)
  else none

/-! ## Record encoder and batch driver (kg.py lines 82-95) -/

/-- The five `randint` outcomes consumed by one `random_serial` call. -/
structure SerialDraws where
  r0 : Nat
  r1 : Nat
  r2 : Nat
  r3 : Nat
  r4 : Nat

/-- The part of the record format string `"{},{:02X},{:02X},Standard,{}"`
(kg.py line 83) that precedes the payload field. -/
def record_head (serial : String) (id1 id2 : Nat) : String :=
  serial ++ "," ++ hexPad 2 id1 ++ "," ++ hexPad 2 id2 ++ ",Standard,"

/-- One formatted record line: `f.format(serial, id1, id2, payload)` for the
format string of kg.py line 83. -/
def record_line (serial : String) (id1 id2 : Nat) (payload : String) : String :=
  record_head serial id1 id2 ++ payload

/-- The message that `generate_single` signs (kg.py line 85): the record format
applied with the hardware id as payload. -/
def generate_msg (d : SerialDraws) (id1 id2 : Nat) (hwid : String) : String :=
  record_line (random_serial d.r0 d.r1 d.r2 d.r3 d.r4) id1 id2 hwid

/-- Embeds `generate_single` (kg.py lines 82-87): draw a serial, sign the
message built with the hardware id as payload, and return the same record with
the signature substituted for the payload.  `none` models the fatal assertion
inside `sign`. -/
def generate_single (k : DSAPrivateKey) (d : SerialDraws) (id1 id2 : Nat) (hwid : String) :
    Option String :=
  let serial := random_serial d.r0 d.r1 d.r2 d.r3 d.r4
  let msg := record_line serial id1 id2 hwid
  (sign k msg).map (fun sig => record_line serial id1 id2 sig)

/-- The record line `generate_single` produces when signing succeeds. -/
def line_of (k : DSAPrivateKey) (d : SerialDraws) (id1 id2 : Nat) (hwid : String) : String :=
  record_line (random_serial d.r0 d.r1 d.r2 d.r3 d.r4) id1 id2
    (hexPad 40 (k.sign_rs (generate_msg d id1 id2 hwid)).1 ++
      hexPad 40 (k.sign_rs (generate_msg d id1 id2 hwid)).2)

/-- Embeds the `EDITIONS` dict (kg.py lines 10-15) as a partial lookup. -/
def EDITIONS (e : String) : Option Nat :=
  if e = "Lite" then some 4
  else if e = "Intro" then some 3
  else if e = "Standard" then some 0
  else if e = "Suite" then some 2
  else none

/-- The `(id1, id2)` pairs enumerated by `generate_all` (kg.py lines 90-95), in
yield order: the edition/version pair, then `0x40..0xff` with `id2 = 0x10`,
then `0x8000..0x80ff` with `id2 = 0x10`. -/
def id_pairs (code : Nat) (version : Nat) : List (Nat × Nat) :=
  (code, version <<< 4) :: (List.range' 0x40 192).map (fun i => (i, 0x10)) ++
    (List.range' 0x8000 256).map (fun i => (i, 0x10))

/-- One record per pair, in order, threading the per-record draw index; `none`
as soon as any `generate_single` fails. -/
def gen_records (k : DSAPrivateKey) (draws : Nat → SerialDraws) (hwid : String) :
    Nat → List (Nat × Nat) → Option (List String)
  | _, [] => some []
  | i, p :: ps =>
    match generate_single k (draws i) p.1 p.2 hwid, gen_records k draws hwid (i + 1) ps with
    | some line, some rest => some (line :: rest)
    | _, _ => none

/-- The record lines `gen_records` produces when every signature succeeds. -/
def gen_lines (k : DSAPrivateKey) (draws : Nat → SerialDraws) (hwid : String) :
    Nat → List (Nat × Nat) → List String
  | _, [] => []
  | i, p :: ps => line_of k (draws i) p.1 p.2 hwid :: gen_lines k draws hwid (i + 1) ps

/-- Embeds `generate_all` (kg.py lines 90-95) with the random source made an
explicit parameter `draws` (the `i`-th record consumes `draws i`). -/
def generate_all (k : DSAPrivateKey) (draws : Nat → SerialDraws) (edition : String)
    (version : Nat) (hwid : String) : Option (List String) :=
  match EDITIONS edition with
  | none => none
  | some code => gen_records k draws hwid 0 (id_pairs code version)

/-! ## Pattern checkers for the spec's regular expressions -/

/-- Uppercase hexadecimal character class `[0-9A-F]`. -/
def isHexUp (c : Char) : Bool :=
  (decide ('0' ≤ c) && decide (c ≤ '9')) || (decide ('A' ≤ c) && decide (c ≤ 'F'))

/-- Consume exactly `n` characters of class `[0-9A-F]`, returning the rest. -/
def runHex : Nat → List Char → Option (List Char)
  | 0, cs => some cs
  | _ + 1, [] => none
  | n + 1, c :: cs => if isHexUp c then runHex n cs else none

/-- Consume exactly the literal character sequence `lit`, returning the rest. -/
def runLit : List Char → List Char → Option (List Char)
  | [], cs => some cs
  | _ :: _, [] => none
  | l :: ls, c :: cs => if c = l then runLit ls cs else none

/-- Consume `-[0-9A-F]{4}`. -/
def runDashGroup (cs : List Char) : Option (List Char) :=
  (runLit ([ '-' ]) cs).bind (runHex 4)

/-- Consume `[0-9A-F]{4}(-[0-9A-F]{4}){5}`: the serial-number / hardware-id
shape (six dash-separated groups of four uppercase hexadecimal digits). -/
def runSerialPat (cs : List Char) : Option (List Char) :=
  (((((runHex 4 cs).bind runDashGroup).bind runDashGroup).bind
    runDashGroup).bind runDashGroup).bind runDashGroup

/-- Full match of `([0-9A-F]{4}-){5}[0-9A-F]{4}` (kg.py line 109's regex). -/
def hwid_ok (s : String) : Bool :=
  match runSerialPat s.data with
  | some [] => true
  | _ => false

/-- Full match of the claim's four-field pattern
`^[0-9A-F]{4}(-[0-9A-F]{4}){5},[0-9A-F]{2},[0-9A-F]{2},[0-9A-F]{80}$`. -/
def c1_claim_pattern (s : String) : Bool :=
  match ((((runSerialPat s.data).bind (runLit ([ ',' ]))).bind (runHex 2)).bind
      (fun cs => ((runLit ([ ',' ]) cs).bind (runHex 2)).bind (runLit ([ ',' ])))).bind
      (runHex 80) with
  | some [] => true
  | _ => false

/-- Full match of the five-field pattern
`^[0-9A-F]{4}(-[0-9A-F]{4}){5},[0-9A-F]{2},[0-9A-F]{2},Standard,[0-9A-F]{80}$`. -/
def c1_amended_pattern (s : String) : Bool :=
  match ((((runSerialPat s.data).bind (runLit ([ ',' ]))).bind (runHex 2)).bind
      (fun cs => ((runLit ([ ',' ]) cs).bind (runHex 2)).bind
        (runLit ((",Standard,").data)))).bind (runHex 80) with
  | some [] => true
  | _ => false

/-! ## Hardware-id normalization and top-level flow (kg.py lines 106-113) -/

/-- Python's `hwid[i:i+4]` string slice. -/
def slice4 (s : String) (i : Nat) : List Char := (s.data.drop i).take 4

/-- Embeds `"-".join(hwid[i:i+4] for i in range(0, 24, 4))` (kg.py line 108). -/
def insert_dashes (s : String) : String :=
  String.mk (slice4 s 0 ++ '-' :: slice4 s 4 ++ '-' :: slice4 s 8 ++ '-' ::
    slice4 s 12 ++ '-' :: slice4 s 16 ++ '-' :: slice4 s 20)

/-- Python's `str.upper` on the ASCII strings this program handles: uppercase
every character. -/
def str_upper (s : String) : String := String.mk (s.data.map Char.toUpper)

/-- The candidate hardware id after kg.py lines 106-108: the input uppercased,
with dashes inserted every 4 characters when the uppercased form has exactly 24
characters. -/
def normalize_target (input : String) : String :=
  if (str_upper input).length = 24 then insert_dashes (str_upper input) else str_upper input

/-- Embeds kg.py lines 106-109: uppercase the input, insert dashes when it has
exactly 24 characters, then accept exactly when the regex of line 109 fully
matches; the failed `assert` is modelled as `none`. -/
def normalize_hwid (input : String) : Option String :=
  let h := str_upper input
  let h := if h.length = 24 then insert_dashes h else h
  if hwid_ok h then some h else none

/-- The program's record-producing flow (kg.py lines 106-111): hardware-id
normalization runs first, and only on success is `generate_all` reached. -/
def main_flow (k : DSAPrivateKey) (draws : Nat → SerialDraws) (edition : String)
    (version : Nat) (hwidInput : String) : Option (List String) :=
  match normalize_hwid hwidInput with
  | none => none
  | some h => generate_all k draws edition version h

/-- The CLI's accepted versions, `choices=range(9, 13)` (kg.py line 20). -/
def version_choices : List Nat := List.range' 9 4
/-! ## Arithmetic helpers for the CRC refinement -/

theorem and_ffff_eq_mod (x : Nat) : x &&& 0xffff = x % 65536 := by
  have h : x &&& 2 ^ 16 - 1 = x % 2 ^ 16 := Nat.and_pow_two_sub_one_eq_mod x 16
  norm_num at h
  exact h

theorem bit16_iff (x : Nat) : (x &&& 0x10000 ≠ 0) ↔ x / 65536 % 2 = 1 := by
  have h : (0x10000 : Nat) = 2 ^ 16 := by norm_num
  rw [h, Nat.and_two_pow, Nat.testBit_to_div_mod]
  by_cases hb : x / 2 ^ 16 % 2 = 1 <;> simp [hb]

theorem crcRound_mask (r : Nat) : crcRound r &&& 0xffff = crcRound (r &&& 0xffff) &&& 0xffff := by
  simp only [crcRound, Nat.shiftLeft_eq, pow_one]
  have hcond : (r * 2 &&& 0x10000 ≠ 0) ↔ ((r &&& 0xffff) * 2 &&& 0x10000 ≠ 0) := by
    rw [bit16_iff, bit16_iff, and_ffff_eq_mod]
    omega
  by_cases hc : r * 2 &&& 0x10000 ≠ 0
  · rw [if_pos hc, if_pos (hcond.mp hc)]
    rw [Nat.and_xor_distrib_right, Nat.and_xor_distrib_right]
    congr 1
    rw [and_ffff_eq_mod, and_ffff_eq_mod, and_ffff_eq_mod]
    omega
  · rw [if_neg hc, if_neg (fun h => hc (hcond.mpr h))]
    rw [and_ffff_eq_mod, and_ffff_eq_mod, and_ffff_eq_mod]
    omega

theorem crcRounds_mask (n : Nat) : ∀ r : Nat,
    crcRounds n r &&& 0xffff = crcRoundsMasked n (r &&& 0xffff) := by
  induction n with
  | zero => intro r; rfl
  | succ n ih =>
    intro r
    show crcRounds n (crcRound r) &&& 0xffff = crcRoundsMasked n (crcRoundMasked (r &&& 0xffff))
    rw [ih, crcRoundMasked, ← crcRound_mask]

theorem crcRoundsMasked_masked (n : Nat) : ∀ x : Nat,
    crcRoundsMasked n (x &&& 0xffff) &&& 0xffff = crcRoundsMasked n (x &&& 0xffff) := by
  induction n with
  | zero =>
    intro x
    show (x &&& 0xffff) &&& 0xffff = x &&& 0xffff
    rw [Nat.and_assoc, Nat.and_self]
  | succ n ih =>
    intro x
    show crcRoundsMasked n (crcRoundMasked (x &&& 0xffff)) &&& 0xffff = _
    rw [crcRoundMasked]
    exact ih (crcRound (x &&& 0xffff))

theorem crcRoundsMasked_succ_masked (n z : Nat) :
    crcRoundsMasked (n + 1) z &&& 0xffff = crcRoundsMasked (n + 1) z := by
  show crcRoundsMasked n (crcRoundMasked z) &&& 0xffff = crcRoundsMasked n (crcRoundMasked z)
  rw [crcRoundMasked]
  exact crcRoundsMasked_masked n (crcRound z)

theorem crcStep_mask (groups : List Nat) (r i : Nat) :
    crcRounds 8 (r ^^^ crcByte groups i <<< 8) &&& 0xffff
      = crcRoundsMasked 8 ((r &&& 0xffff) ^^^ crcByte groups i <<< 8) := by
  rw [crcRounds_mask]
  congr 1
  rw [Nat.and_xor_distrib_right]
  congr 1
  rw [and_ffff_eq_mod]
  apply Nat.mod_eq_of_lt
  have hv : crcByte groups i ≤ 0xff := Nat.and_le_right
  have h8 : (2 : Nat) ^ 8 = 256 := by norm_num
  rw [Nat.shiftLeft_eq, h8]
  omega

theorem crcFold_mask (groups : List Nat) : ∀ (l : List Nat) (r : Nat),
    (l.foldl (fun r i => crcRounds 8 (r ^^^ crcByte groups i <<< 8)) r) &&& 0xffff
      = l.foldl (fun r i => crcRoundsMasked 8 (r ^^^ crcByte groups i <<< 8)) (r &&& 0xffff) := by
  intro l
  induction l with
  | nil => intro r; rfl
  | cons a l ih =>
    intro r
    simp only [List.foldl_cons]
    rw [ih, crcStep_mask]

theorem crcFoldMasked_masked (groups : List Nat) : ∀ (l : List Nat) (x : Nat),
    (l.foldl (fun r i => crcRoundsMasked 8 (r ^^^ crcByte groups i <<< 8)) (x &&& 0xffff)) &&& 0xffff
      = l.foldl (fun r i => crcRoundsMasked 8 (r ^^^ crcByte groups i <<< 8)) (x &&& 0xffff) := by
  intro l
  induction l with
  | nil =>
    intro x
    simp only [List.foldl_nil]
    rw [Nat.and_assoc, Nat.and_self]
  | cons a l ih =>
    intro x
    simp only [List.foldl_cons]
    have hm : crcRoundsMasked 8 ((x &&& 0xffff) ^^^ crcByte groups a <<< 8) &&& 0xffff
        = crcRoundsMasked 8 ((x &&& 0xffff) ^^^ crcByte groups a <<< 8) :=
      crcRoundsMasked_succ_masked 7 ((x &&& 0xffff) ^^^ crcByte groups a <<< 8)
    rw [← hm]
    exact ih (crcRoundsMasked 8 ((x &&& 0xffff) ^^^ crcByte groups a <<< 8))

theorem overall_checksum_eq_spec_all (groups : List Nat) :
    overall_checksum groups = overall_checksum_spec groups := by
  unfold overall_checksum overall_checksum_spec
  rw [crcFold_mask, ← crcFoldMasked_masked groups (List.range 20) 0]
  simp only [Nat.zero_and]
/-! ## Bit-level helpers for the group checksum -/

theorem shiftRight_or_distrib (a b s : Nat) : (a ||| b) >>> s = a >>> s ||| b >>> s := by
  apply Nat.eq_of_testBit_eq
  intro j
  simp [Nat.testBit_shiftRight, Nat.testBit_or]

theorem shiftRight_and_distrib (a b s : Nat) : (a &&& b) >>> s = a >>> s &&& b >>> s := by
  apply Nat.eq_of_testBit_eq
  intro j
  simp [Nat.testBit_shiftRight, Nat.testBit_and]

theorem xor_lt_16 (x y : Nat) (hx : x < 16) (hy : y < 16) : x ^^^ y < 16 := by
  have h4 : (16 : Nat) = 2 ^ 4 := by norm_num
  rw [h4] at hx hy ⊢
  exact Nat.xor_lt_two_pow hx hy

theorem csum_lt_16 (i n : Nat) (hi : i < 16) : group_csum i n < 16 := by
  unfold group_csum
  apply xor_lt_16 _ _ _ hi
  apply xor_lt_16
  apply xor_lt_16
  apply xor_lt_16
  apply xor_lt_16
  all_goals {
    first
      | (have h := Nat.and_le_right (n := n >>> 4) (m := 0xf); omega)
      | (have h := Nat.and_le_right (n := n >>> 5) (m := 0x8); omega)
      | (have h := Nat.and_le_right (n := n >>> 9) (m := 0x7); omega)
      | (have h := Nat.and_le_right (n := n >>> 11) (m := 0xe); omega)
      | (have h := Nat.and_le_right (n := n >>> 15) (m := 0x1); omega)
  }

theorem fix_eq (i n : Nat) :
    fix_group_checksum i n = (n &&& 0xfff0) ||| group_csum i n := rfl

theorem low4_and_fff0 : ∀ x < 16, x &&& 0xfff0 = 0 := by decide

theorem low4_and_f : ∀ x < 16, x &&& 0xf = x := by decide

theorem fix_high (i n : Nat) (hi : i < 16) :
    fix_group_checksum i n &&& 0xfff0 = n &&& 0xfff0 := by
  rw [fix_eq, Nat.and_distrib_right, Nat.and_assoc, Nat.and_self,
    low4_and_fff0 _ (csum_lt_16 i n hi), Nat.or_zero]

theorem fix_lt (i n : Nat) (hi : i < 16) (hn : n < 65536) : fix_group_checksum i n < 65536 := by
  rw [fix_eq]
  have h16 : (65536 : Nat) = 2 ^ 16 := by norm_num
  rw [h16]
  apply Nat.or_lt_two_pow
  · exact lt_of_le_of_lt Nat.and_le_left (h16 ▸ hn)
  · have h := csum_lt_16 i n hi
    have h2 : (2 : Nat) ^ 16 = 65536 := by norm_num
    omega

theorem fix_low (i n : Nat) (hi : i < 16) :
    fix_group_checksum i n &&& 0xf = group_csum i n := by
  rw [fix_eq, Nat.and_distrib_right, Nat.and_assoc]
  rw [show (0xfff0 : Nat) &&& 0xf = 0 by decide]
  rw [Nat.and_zero, Nat.zero_or, low4_and_f _ (csum_lt_16 i n hi)]

theorem term_stable (v c s m : Nat) (hc : c < 16) (hs : 4 ≤ s) (hm : 0xfff0 >>> s &&& m = m) :
    ((v &&& 0xfff0 ||| c) >>> s) &&& m = (v >>> s) &&& m := by
  rw [shiftRight_or_distrib, shiftRight_and_distrib]
  have hc0 : c >>> s = 0 := by
    rw [Nat.shiftRight_eq_div_pow]
    apply Nat.div_eq_of_lt
    have h4 : (16 : Nat) = 2 ^ 4 := by norm_num
    calc c < 16 := hc
      _ ≤ 2 ^ s := by rw [h4]; exact Nat.pow_le_pow_right (by omega) hs
  rw [hc0, Nat.or_zero, Nat.and_assoc, hm]

theorem csum_stable (i v : Nat) (hi : i < 16) :
    group_csum i (fix_group_checksum i v) = group_csum i v := by
  have hc := csum_lt_16 i v hi
  rw [fix_eq]
  generalize hcv : group_csum i v = c at hc ⊢
  unfold group_csum
  rw [term_stable v c 4 0xf hc (by omega) (by decide),
    term_stable v c 5 0x8 hc (by omega) (by decide),
    term_stable v c 9 0x7 hc (by omega) (by decide),
    term_stable v c 11 0xe hc (by omega) (by decide),
    term_stable v c 15 0x1 hc (by omega) (by decide)]
  exact hcv

theorem fix_idem (i v : Nat) (hi : i < 16) :
    fix_group_checksum i (fix_group_checksum i v) = fix_group_checksum i v := by
  conv_lhs => rw [fix_eq]
  rw [fix_high i v hi, csum_stable i v hi, ← fix_eq]
/-! ## Facts about the hexadecimal rendering -/

theorem hexDigit_hex : ∀ n < 16, isHexUp (hexDigit n) = true := by decide

theorem hexCharsAux_irrel : ∀ f1 n, n < f1 → ∀ f2, n < f2 →
    hexCharsAux f1 n = hexCharsAux f2 n := by
  intro f1
  induction f1 with
  | zero => intro n h; omega
  | succ f1 ih =>
    intro n hn f2 hn2
    cases f2 with
    | zero => omega
    | succ f2 =>
      show (if n < 16 then [hexDigit n] else hexCharsAux f1 (n / 16) ++ [hexDigit (n % 16)])
        = (if n < 16 then [hexDigit n] else hexCharsAux f2 (n / 16) ++ [hexDigit (n % 16)])
      by_cases h16 : n < 16
      · rw [if_pos h16, if_pos h16]
      · rw [if_neg h16, if_neg h16]
        have hlt : n / 16 < n := Nat.div_lt_self (by omega) (by omega)
        rw [ih (n / 16) (by omega) f2 (by omega)]

theorem hexChars_unfold (n : Nat) :
    hexChars n = if n < 16 then [hexDigit n] else hexChars (n / 16) ++ [hexDigit (n % 16)] := by
  show (if n < 16 then [hexDigit n] else hexCharsAux n (n / 16) ++ [hexDigit (n % 16)]) = _
  by_cases h16 : n < 16
  · rw [if_pos h16, if_pos h16]
  · rw [if_neg h16, if_neg h16]
    have hlt : n / 16 < n := Nat.div_lt_self (by omega) (by omega)
    rw [hexCharsAux_irrel n (n / 16) (by omega) (n / 16 + 1) (by omega)]
    rfl

theorem hexChars_all_hex (n : Nat) : ∀ c ∈ hexChars n, isHexUp c = true := by
  induction n using Nat.strong_induction_on with
  | _ n ih =>
    rw [hexChars_unfold]
    split
    · rename_i h16
      intro c hc
      rw [List.mem_singleton] at hc
      subst hc
      exact hexDigit_hex n h16
    · rename_i h16
      intro c hc
      rw [List.mem_append, List.mem_singleton] at hc
      rcases hc with hc | hc
      · exact ih (n / 16) (Nat.div_lt_self (by omega) (by omega)) c hc
      · subst hc
        exact hexDigit_hex (n % 16) (Nat.mod_lt n (by omega))

theorem hexChars_len_le (w : Nat) : ∀ n, n < 16 ^ w → 1 ≤ w → (hexChars n).length ≤ w := by
  induction w with
  | zero => intro n _ h1; omega
  | succ w ih =>
    intro n hn _
    rw [hexChars_unfold]
    split
    · simp
    · rename_i h16
      rw [List.length_append, List.length_singleton]
      rcases Nat.eq_zero_or_pos w with hw | hw
      · exfalso
        subst hw
        norm_num at hn
        omega
      · have hdiv : n / 16 < 16 ^ w := by
          apply Nat.div_lt_of_lt_mul
          rw [mul_comm, ← pow_succ]
          exact hn
        have := ih (n / 16) hdiv hw
        omega

theorem hexChars_len_ge (k : Nat) : ∀ n, 16 ^ k ≤ n → k + 1 ≤ (hexChars n).length := by
  induction k with
  | zero =>
    intro n _
    rw [hexChars_unfold]
    split
    · simp
    · rw [List.length_append, List.length_singleton]
      omega
  | succ k ih =>
    intro n h
    rw [hexChars_unfold]
    split
    · rename_i h16
      exfalso
      have h1 : (16 : Nat) ^ 1 ≤ 16 ^ (k + 1) := Nat.pow_le_pow_right (by omega) (by omega)
      norm_num at h1
      omega
    · rw [List.length_append, List.length_singleton]
      have hdiv : 16 ^ k ≤ n / 16 := by
        rw [Nat.le_div_iff_mul_le (by omega)]
        calc 16 ^ k * 16 = 16 ^ (k + 1) := (pow_succ 16 k).symm
          _ ≤ n := h
      have := ih (n / 16) hdiv
      omega

theorem hexPad_len (w n : Nat) (h : n < 16 ^ w) (h1 : 1 ≤ w) : (hexPad w n).data.length = w := by
  show (List.replicate (w - (hexChars n).length) '0' ++ hexChars n).length = w
  rw [List.length_append, List.length_replicate]
  have := hexChars_len_le w n h h1
  omega

theorem hexPad_all_hex (w n : Nat) : ∀ c ∈ (hexPad w n).data, isHexUp c = true := by
  show ∀ c ∈ List.replicate (w - (hexChars n).length) '0' ++ hexChars n, _
  intro c hc
  rw [List.mem_append] at hc
  rcases hc with hc | hc
  · rw [List.eq_of_mem_replicate hc]
    decide
  · exact hexChars_all_hex n c hc

/-! ## Facts about the pattern checkers -/

theorem runHex_chunk : ∀ (xs : List Char) (n : Nat) (rest : List Char),
    (∀ c ∈ xs, isHexUp c = true) →
    runHex (xs.length + n) (xs ++ rest) = runHex n rest := by
  intro xs
  induction xs with
  | nil => intro n rest _; simp
  | cons c cs ih =>
    intro n rest hhex
    have hs : (c :: cs).length + n = (cs.length + n) + 1 := by
      rw [List.length_cons]
      omega
    rw [hs]
    show runHex ((cs.length + n) + 1) (c :: (cs ++ rest)) = _
    rw [show runHex ((cs.length + n) + 1) (c :: (cs ++ rest))
        = if isHexUp c then runHex (cs.length + n) (cs ++ rest) else none from rfl]
    rw [if_pos (hhex c (List.mem_cons_self c cs))]
    exact ih n rest (fun x hx => hhex x (List.mem_cons_of_mem c hx))

theorem runLit_self : ∀ (lit rest : List Char), runLit lit (lit ++ rest) = some rest := by
  intro lit
  induction lit with
  | nil => intro rest; rfl
  | cons l ls ih =>
    intro rest
    show runLit (l :: ls) (l :: (ls ++ rest)) = some rest
    rw [show runLit (l :: ls) (l :: (ls ++ rest))
        = if l = l then runLit ls (ls ++ rest) else none from rfl]
    rw [if_pos rfl]
    exact ih rest

theorem runHex_pad (w g : Nat) (rest : List Char) (hg : g < 16 ^ w) (hw : 1 ≤ w) :
    runHex w ((hexPad w g).data ++ rest) = some rest := by
  have h := runHex_chunk (hexPad w g).data 0 rest (hexPad_all_hex w g)
  rw [hexPad_len w g hg hw] at h
  rw [show w + 0 = w from rfl] at h
  exact h

theorem runDashGroup_pad (g : Nat) (rest : List Char) (hg : g < 65536) :
    runDashGroup ('-' :: ((hexPad 4 g).data ++ rest)) = some rest := by
  unfold runDashGroup
  rw [show ('-' :: ((hexPad 4 g).data ++ rest)) = [ '-' ] ++ ((hexPad 4 g).data ++ rest) from rfl]
  rw [runLit_self]
  show runHex 4 ((hexPad 4 g).data ++ rest) = some rest
  exact runHex_pad 4 g rest (by norm_num; omega) (by omega)

theorem runSerialPat_append (g0 g1 g2 g3 g4 g5 : Nat) (rest : List Char)
    (h0 : g0 < 65536) (h1 : g1 < 65536) (h2 : g2 < 65536)
    (h3 : g3 < 65536) (h4 : g4 < 65536) (h5 : g5 < 65536) :
    runSerialPat ((hexPad 4 g0).data ++ '-' :: ((hexPad 4 g1).data ++ '-' :: ((hexPad 4 g2).data ++
      '-' :: ((hexPad 4 g3).data ++ '-' :: ((hexPad 4 g4).data ++ '-' :: ((hexPad 4 g5).data ++
      rest)))))) = some rest := by
  unfold runSerialPat
  rw [runHex_pad 4 g0 _ (by norm_num; omega) (by omega)]
  rw [Option.some_bind, runDashGroup_pad g1 _ h1]
  rw [Option.some_bind, runDashGroup_pad g2 _ h2]
  rw [Option.some_bind, runDashGroup_pad g3 _ h3]
  rw [Option.some_bind, runDashGroup_pad g4 _ h4]
  rw [Option.some_bind, runDashGroup_pad g5 _ h5]
/-! ## Facts about serial numbers -/

theorem and_fff0_eq (n : Nat) : n &&& 0xfff0 = 16 * (n >>> 4 &&& 0xfff) := by
  have hc : (0xfff0 : Nat) = (2 ^ 12 - 1) <<< 4 := by decide
  have hm : (0xfff : Nat) = 2 ^ 12 - 1 := by decide
  have hs : 16 * (n >>> 4 &&& (2 ^ 12 - 1)) = (n >>> 4 &&& (2 ^ 12 - 1)) <<< 4 := by
    rw [Nat.shiftLeft_eq]
    norm_num
    omega
  rw [hc, hm, hs]
  apply Nat.eq_of_testBit_eq
  intro j
  simp only [Nat.testBit_and, Nat.testBit_shiftLeft, Nat.testBit_shiftRight,
    Nat.testBit_two_pow_sub_one]
  by_cases h4 : 4 ≤ j
  · have hj : 4 + (j - 4) = j := by omega
    simp [h4, hj, Bool.and_comm, Bool.and_left_comm]
  · simp [h4]

theorem fix_as_add (i n : Nat) (hi : i < 16) :
    fix_group_checksum i n = 16 * (n >>> 4 &&& 0xfff) + group_csum i n := by
  have hc := csum_lt_16 i n hi
  rw [fix_eq, and_fff0_eq]
  have h16 : (16 : Nat) = 2 ^ 4 := by norm_num
  rw [h16]
  rw [← Nat.mul_add_lt_is_or (by omega) (n >>> 4 &&& 0xfff)]

theorem fix0_range (r0 : Nat) (hlo : 0x3000 ≤ r0) (hhi : r0 ≤ 0x3fff) :
    0x3000 ≤ fix_group_checksum 0 r0 ∧ fix_group_checksum 0 r0 ≤ 0x3fff := by
  have hc := csum_lt_16 0 r0 (by omega)
  rw [fix_as_add 0 r0 (by omega)]
  rw [Nat.shiftRight_eq_div_pow]
  have hp : (2 : Nat) ^ 4 = 16 := by norm_num
  rw [hp]
  have hdiv : r0 / 16 < 2 ^ 12 := by omega
  rw [show (0xfff : Nat) = 2 ^ 12 - 1 from by decide,
    Nat.and_pow_two_sub_one_of_lt_two_pow hdiv]
  omega

theorem overall_checksum_lt (groups : List Nat) : overall_checksum groups < 65536 := by
  unfold overall_checksum
  have h := Nat.and_le_right
    (n := (List.range 20).foldl (fun r i => crcRounds 8 (r ^^^ crcByte groups i <<< 8)) 0)
    (m := 0xffff)
  omega

theorem serial_groups_getD_lt (r0 r1 r2 r3 r4 : Nat) (h0 : r0 < 65536) (h1 : r1 < 65536)
    (h2 : r2 < 65536) (h3 : r3 < 65536) (h4 : r4 < 65536) :
    ∀ j, j ≤ 4 → (serial_groups r0 r1 r2 r3 r4).getD j 0 < 65536 := by
  intro j hj
  interval_cases j
  · exact fix_lt 0 r0 (by omega) h0
  · exact fix_lt 1 r1 (by omega) h1
  · exact fix_lt 2 r2 (by omega) h2
  · exact fix_lt 3 r3 (by omega) h3
  · exact fix_lt 4 r4 (by omega) h4

theorem serial_then (r0 r1 r2 r3 r4 : Nat) (rest : List Char)
    (h0 : r0 < 65536) (h1 : r1 < 65536) (h2 : r2 < 65536) (h3 : r3 < 65536) (h4 : r4 < 65536) :
    runSerialPat ((random_serial r0 r1 r2 r3 r4).data ++ rest) = some rest := by
  have hg := serial_groups_getD_lt r0 r1 r2 r3 r4 h0 h1 h2 h3 h4
  have hd := overall_checksum_lt (serial_groups r0 r1 r2 r3 r4)
  simp only [random_serial, String.data_append, List.append_assoc, List.cons_append,
    List.nil_append, show ("-" : String).data = ([ '-' ]) from rfl, List.singleton_append]
  exact runSerialPat_append _ _ _ _ _ _ rest (hg 0 (by omega)) (hg 1 (by omega))
    (hg 2 (by omega)) (hg 3 (by omega)) (hg 4 (by omega)) hd
/-! ## Claim C4 -/

/-- C4: for every list of five 16-bit values, the source's `overall_checksum` —
which masks the CRC register only once, at the very end — returns the same
16-bit result as the spec's reference CRC, which masks the register after every
one of the 8 rounds of each of the 20 byte-feeding iterations. -/
theorem overall_checksum_refines_spec (groups : List Nat)
    (hlen : groups.length = 5) (hvals : ∀ g ∈ groups, g < 65536) :
    overall_checksum groups = overall_checksum_spec groups :=
  overall_checksum_eq_spec_all groups

theorem overall_checksum_refines_spec_witness :
    ([0x1234, 0x5678, 0x9abc, 0xdef0, 0x0fed] : List Nat).length = 5 ∧
    (∀ g ∈ ([0x1234, 0x5678, 0x9abc, 0xdef0, 0x0fed] : List Nat), g < 65536) ∧
    overall_checksum [0x1234, 0x5678, 0x9abc, 0xdef0, 0x0fed]
      = overall_checksum_spec [0x1234, 0x5678, 0x9abc, 0xdef0, 0x0fed] :=
  ⟨by decide, by decide, overall_checksum_refines_spec _ (by decide) (by decide)⟩

/-! ## Claim C5 -/

/-- C5: for every 16-bit value `v` and group index `i ≤ 4`,
`fix_group_checksum i v` equals the spec's `(v &&& 0xFFF0) ||| (checksum &&& 0xF)`
form (the source's missing `&&& 0xF` mask is harmless because the checksum
nibble is always below 16), the result is a 16-bit value, and its high 12 bits
are those of `v`. -/
theorem fix_group_checksum_spec_eq (i v : Nat) (hi : i ≤ 4) (hv : v < 65536) :
    fix_group_checksum i v = (v &&& 0xfff0) ||| (group_csum i v &&& 0xf) ∧
    fix_group_checksum i v < 65536 ∧
    fix_group_checksum i v &&& 0xfff0 = v &&& 0xfff0 ∧
    group_csum i v < 16 := by
  have hi16 : i < 16 := by omega
  refine ⟨?_, fix_lt i v hi16 hv, fix_high i v hi16, csum_lt_16 i v hi16⟩
  rw [fix_eq, low4_and_f _ (csum_lt_16 i v hi16)]

theorem fix_group_checksum_spec_eq_witness :
    (3 : Nat) ≤ 4 ∧ (0xabcd : Nat) < 65536 ∧
    fix_group_checksum 3 0xabcd = (0xabcd &&& 0xfff0) ||| (group_csum 3 0xabcd &&& 0xf) :=
  ⟨by decide, by decide, (fix_group_checksum_spec_eq 3 0xabcd (by decide) (by decide)).1⟩

/-! ## Claim C6 -/

/-- C6: for every group index `i ≤ 4` and 16-bit value `v`,
`fix_group_checksum` is idempotent, and the low nibble of the corrected value
equals the checksum formula recomputed from the corrected value's own bits. -/
theorem fix_group_checksum_idempotent (i v : Nat) (hi : i ≤ 4) (hv : v < 65536) :
    fix_group_checksum i (fix_group_checksum i v) = fix_group_checksum i v ∧
    fix_group_checksum i v &&& 0xf = group_csum i (fix_group_checksum i v) := by
  have hi16 : i < 16 := by omega
  exact ⟨fix_idem i v hi16, by rw [fix_low i v hi16, csum_stable i v hi16]⟩

theorem fix_group_checksum_idempotent_witness :
    (2 : Nat) ≤ 4 ∧ (0x1234 : Nat) < 65536 ∧
    fix_group_checksum 2 (fix_group_checksum 2 0x1234) = fix_group_checksum 2 0x1234 :=
  ⟨by decide, by decide, (fix_group_checksum_idempotent 2 0x1234 (by decide) (by decide)).1⟩

/-! ## Claim C3 -/

/-- C3: every string `random_serial` returns (for draws within the ranges the
source requests from `randint`) consists of six dash-separated 4-digit
uppercase-hex groups rendering `g0..g4 = serial_groups ..` and
`g5 = overall_checksum [g0..g4]`; `g0` stays in `0x3000..0x3FFF`, and each of
`g0..g4` is a fixed point of `fix_group_checksum` at its own index — every
produced serial is self-verifying. -/
theorem random_serial_self_verifying (r0 r1 r2 r3 r4 : Nat)
    (hlo : 0x3000 ≤ r0) (hhi : r0 ≤ 0x3fff) (h1 : r1 ≤ 0xffff) (h2 : r2 ≤ 0xffff)
    (h3 : r3 ≤ 0xffff) (h4 : r4 ≤ 0xffff) :
    random_serial r0 r1 r2 r3 r4 =
      hexPad 4 ((serial_groups r0 r1 r2 r3 r4).getD 0 0) ++ "-" ++
      hexPad 4 ((serial_groups r0 r1 r2 r3 r4).getD 1 0) ++ "-" ++
      hexPad 4 ((serial_groups r0 r1 r2 r3 r4).getD 2 0) ++ "-" ++
      hexPad 4 ((serial_groups r0 r1 r2 r3 r4).getD 3 0) ++ "-" ++
      hexPad 4 ((serial_groups r0 r1 r2 r3 r4).getD 4 0) ++ "-" ++
      hexPad 4 (overall_checksum (serial_groups r0 r1 r2 r3 r4)) ∧
    runSerialPat (random_serial r0 r1 r2 r3 r4).data = some [] ∧
    0x3000 ≤ (serial_groups r0 r1 r2 r3 r4).getD 0 0 ∧
    (serial_groups r0 r1 r2 r3 r4).getD 0 0 ≤ 0x3fff ∧
    (∀ j, j ≤ 4 → fix_group_checksum j ((serial_groups r0 r1 r2 r3 r4).getD j 0)
      = (serial_groups r0 r1 r2 r3 r4).getD j 0) := by
  refine ⟨rfl, ?_, (fix0_range r0 hlo hhi).1, (fix0_range r0 hlo hhi).2, ?_⟩
  · have h := serial_then r0 r1 r2 r3 r4 [] (by omega) (by omega) (by omega) (by omega) (by omega)
    rwa [List.append_nil] at h
  · intro j hj
    interval_cases j
    · exact fix_idem 0 r0 (by omega)
    · exact fix_idem 1 r1 (by omega)
    · exact fix_idem 2 r2 (by omega)
    · exact fix_idem 3 r3 (by omega)
    · exact fix_idem 4 r4 (by omega)

theorem random_serial_self_verifying_witness :
    runSerialPat (random_serial 0x3456 1 2 3 4).data = some [] ∧
    0x3000 ≤ (serial_groups 0x3456 1 2 3 4).getD 0 0 ∧
    (serial_groups 0x3456 1 2 3 4).getD 0 0 ≤ 0x3fff ∧
    fix_group_checksum 2 ((serial_groups 0x3456 1 2 3 4).getD 2 0)
      = (serial_groups 0x3456 1 2 3 4).getD 2 0 :=
  (fun h => ⟨h.2.1, h.2.2.1, h.2.2.2.1, h.2.2.2.2 2 (by decide)⟩)
    (random_serial_self_verifying 0x3456 1 2 3 4 (by decide) (by decide) (by decide)
      (by decide) (by decide) (by decide))

/-! ## Claim C7 -/

/-- C7: `sign` fails (fatally, before reaching the primitive) for every key
whose size is not exactly 1024 bits; for a 1024-bit key, when the primitive's
`r` and `s` are below `2^160`, it returns `r` then `s`, each rendered as 40
zero-padded uppercase hex digits with no separator — exactly 80 uppercase hex
characters. -/
theorem sign_spec (k : DSAPrivateKey) (m : String)
    (hr : (k.sign_rs m).1 < 2 ^ 160) (hs : (k.sign_rs m).2 < 2 ^ 160) :
    (k.key_size ≠ 1024 → sign k m = none) ∧
    (k.key_size = 1024 →
      sign k m = some (hexPad 40 (k.sign_rs m).1 ++ hexPad 40 (k.sign_rs m).2) ∧
      (hexPad 40 (k.sign_rs m).1 ++ hexPad 40 (k.sign_rs m).2).data.length = 80 ∧
      ∀ c ∈ (hexPad 40 (k.sign_rs m).1 ++ hexPad 40 (k.sign_rs m).2).data,
        isHexUp c = true) := by
  have h1640 : (16 : Nat) ^ 40 = 2 ^ 160 := by norm_num
  have hr16 : (k.sign_rs m).1 < 16 ^ 40 := by rw [h1640]; exact hr
  have hs16 : (k.sign_rs m).2 < 16 ^ 40 := by rw [h1640]; exact hs
  constructor
  · intro hk
    unfold sign
    rw [if_neg hk]
  · intro hk
    refine ⟨by unfold sign; rw [if_pos hk], ?_, ?_⟩
    · rw [String.data_append, List.length_append, hexPad_len 40 _ hr16 (by omega),
        hexPad_len 40 _ hs16 (by omega)]
    · intro c hc
      rw [String.data_append, List.mem_append] at hc
      rcases hc with hc | hc
      · exact hexPad_all_hex 40 _ c hc
      · exact hexPad_all_hex 40 _ c hc

theorem sign_spec_witness :
    sign ⟨1024, fun _ => (0, 0)⟩ "m" = some (hexPad 40 0 ++ hexPad 40 0) ∧
    (hexPad 40 (0 : Nat) ++ hexPad 40 (0 : Nat)).data.length = 80 :=
  (fun h => ⟨h.1, h.2.1⟩)
    ((sign_spec ⟨1024, fun _ => (0, 0)⟩ "m" (by norm_num) (by norm_num)).2 rfl)

/-! ## Claim C8 -/

/-- C8: inside `generate_single` the signed message (payload = hardware id) and
the final line (payload = signature) share one serial and the same `id1`/`id2`
rendering: both are `record_head serial id1 id2 ++ payload`, so the entire
pre-payload text is byte-identical between the two passes and only the payload
substring differs. -/
theorem generate_single_frame (k : DSAPrivateKey) (d : SerialDraws) (id1 id2 : Nat)
    (hwid : String) (hk : k.key_size = 1024) :
    generate_msg d id1 id2 hwid
      = record_head (random_serial d.r0 d.r1 d.r2 d.r3 d.r4) id1 id2 ++ hwid ∧
    generate_single k d id1 id2 hwid
      = some (record_head (random_serial d.r0 d.r1 d.r2 d.r3 d.r4) id1 id2 ++
          (hexPad 40 (k.sign_rs (generate_msg d id1 id2 hwid)).1 ++
            hexPad 40 (k.sign_rs (generate_msg d id1 id2 hwid)).2)) := by
  constructor
  · rfl
  · show (sign k (record_line (random_serial d.r0 d.r1 d.r2 d.r3 d.r4) id1 id2 hwid)).map _ = _
    unfold sign
    rw [if_pos hk]
    rfl

theorem generate_single_frame_witness :
    generate_msg ⟨1, 2, 3, 4, 5⟩ 0 16 "hw"
      = record_head (random_serial 1 2 3 4 5) 0 16 ++ "hw" :=
  (generate_single_frame ⟨1024, fun _ => (0, 0)⟩ ⟨1, 2, 3, 4, 5⟩ 0 16 "hw" rfl).1
/-! ## Claim C2 -/

theorem generate_single_some (k : DSAPrivateKey) (d : SerialDraws) (id1 id2 : Nat)
    (hwid : String) (hk : k.key_size = 1024) :
    generate_single k d id1 id2 hwid = some (line_of k d id1 id2 hwid) := by
  show (sign k (record_line (random_serial d.r0 d.r1 d.r2 d.r3 d.r4) id1 id2 hwid)).map _ = _
  unfold sign
  rw [if_pos hk]
  rfl

theorem gen_records_eq (k : DSAPrivateKey) (draws : Nat → SerialDraws) (hwid : String)
    (hk : k.key_size = 1024) : ∀ (ps : List (Nat × Nat)) (i : Nat),
    gen_records k draws hwid i ps = some (gen_lines k draws hwid i ps) := by
  intro ps
  induction ps with
  | nil => intro i; rfl
  | cons p ps ih =>
    intro i
    show (match generate_single k (draws i) p.1 p.2 hwid, gen_records k draws hwid (i + 1) ps with
      | some line, some rest => some (line :: rest)
      | _, _ => none) = _
    rw [generate_single_some k (draws i) p.1 p.2 hwid hk, ih (i + 1)]
    rfl

theorem gen_lines_length (k : DSAPrivateKey) (draws : Nat → SerialDraws) (hwid : String) :
    ∀ (ps : List (Nat × Nat)) (i : Nat), (gen_lines k draws hwid i ps).length = ps.length := by
  intro ps
  induction ps with
  | nil => intro i; rfl
  | cons p ps ih =>
    intro i
    show (line_of k (draws i) p.1 p.2 hwid :: gen_lines k draws hwid (i + 1) ps).length = _
    rw [List.length_cons, ih (i + 1), List.length_cons]

theorem gen_lines_getD (k : DSAPrivateKey) (draws : Nat → SerialDraws) (hwid : String) :
    ∀ (ps : List (Nat × Nat)) (i j : Nat), j < ps.length →
    (gen_lines k draws hwid i ps).getD j "" =
      line_of k (draws (i + j)) (ps.getD j (0, 0)).1 (ps.getD j (0, 0)).2 hwid := by
  intro ps
  induction ps with
  | nil => intro i j h; simp at h
  | cons p ps ih =>
    intro i j h
    cases j with
    | zero => simp [gen_lines]
    | succ j =>
      show (gen_lines k draws hwid (i + 1) ps).getD j "" = _
      rw [ih (i + 1) j (by simpa using h)]
      have hij : i + 1 + j = i + (j + 1) := by omega
      rw [hij, List.getD_cons_succ]

theorem id_pairs_length (code version : Nat) : (id_pairs code version).length = 449 := by
  simp [id_pairs]

theorem id_pairs_getD (code version : Nat) : ∀ j, j < 449 →
    (id_pairs code version).getD j (0, 0) =
      if j = 0 then (code, version <<< 4)
      else if j ≤ 192 then (0x40 + (j - 1), 0x10)
      else (0x8000 + (j - 193), 0x10) := by
  intro j hj
  unfold id_pairs
  cases j with
  | zero => simp
  | succ j =>
    rw [List.getD_eq_getElem?_getD]
    by_cases h192 : j < 192
    · rw [List.getElem?_append_left (by simp; omega)]
      rw [List.getElem?_cons_succ]
      rw [List.getElem?_map, List.getElem?_range' _ _ h192]
      have hne : j + 1 ≠ 0 := by omega
      have hle : j + 1 ≤ 192 := by omega
      simp [hne, hle]
    · rw [List.getElem?_append_right (by simp; omega)]
      have hlen : (((code, version <<< 4) :: (List.range' 0x40 192).map fun i => (i, 0x10))).length
          = 193 := by simp
      rw [hlen]
      have hsub : j + 1 - 193 < 256 := by omega
      rw [List.getElem?_map, List.getElem?_range' _ _ hsub]
      have hne : j + 1 ≠ 0 := by omega
      have hgt : ¬ (j + 1 ≤ 192) := by omega
      simp [hne, hgt]

/-- C2: with a valid edition and a 1024-bit key, `generate_all` yields exactly
449 records: first one generated with `id1` = the edition's code and
`id2 = version <<< 4`, then 192 generated with `id1 = 0x40 + (j-1)` (so
`0x40..0xFF` in increasing order) and `id2 = 0x10`, then 256 generated with
`id1 = 0x8000 + (j-193)` (so `0x8000..0x80FF` in increasing order) and
`id2 = 0x10`; for edition "Suite" the code is 2 and for version 12 the first
record's `id2` is `0xC0`. -/
theorem generate_all_enumeration (k : DSAPrivateKey) (draws : Nat → SerialDraws)
    (edition : String) (version : Nat) (hwid : String) (code : Nat)
    (hk : k.key_size = 1024) (hcode : EDITIONS edition = some code) :
    ∃ l, generate_all k draws edition version hwid = some l ∧ l.length = 449 ∧
      (∀ j, j < 449 → l.getD j "" =
        line_of k (draws j)
          (if j = 0 then code else if j ≤ 192 then 0x40 + (j - 1) else 0x8000 + (j - 193))
          (if j = 0 then version <<< 4 else 0x10) hwid) ∧
      (edition = "Suite" → code = 2) ∧ (version = 12 → version <<< 4 = 0xC0) := by
  refine ⟨gen_lines k draws hwid 0 (id_pairs code version), ?_, ?_, ?_, ?_, ?_⟩
  · unfold generate_all
    rw [hcode]
    exact gen_records_eq k draws hwid hk _ 0
  · rw [gen_lines_length]
    exact id_pairs_length code version
  · intro j hj
    rw [gen_lines_getD k draws hwid _ 0 j (by rw [id_pairs_length]; omega)]
    rw [id_pairs_getD code version j hj]
    rw [Nat.zero_add]
    by_cases h0 : j = 0
    · simp [h0]
    · by_cases h192 : j ≤ 192 <;> simp [h0, h192]
  · intro hsuite
    subst hsuite
    have h2 : EDITIONS ("Suite") = some 2 := by decide
    injection hcode.symm.trans h2 with h
  · intro hv
    subst hv
    decide

theorem generate_all_enumeration_witness :
    ∃ l, generate_all ⟨1024, fun _ => (0, 0)⟩ (fun _ => ⟨0, 0, 0, 0, 0⟩) ("Suite") 12
        ("1111-2222-3333-4444-5555-6666") = some l ∧ l.length = 449 ∧
      (∀ j, j < 449 → l.getD j "" =
        line_of ⟨1024, fun _ => (0, 0)⟩ ((fun _ => (⟨0, 0, 0, 0, 0⟩ : SerialDraws)) j)
          (if j = 0 then 2 else if j ≤ 192 then 0x40 + (j - 1) else 0x8000 + (j - 193))
          (if j = 0 then 12 <<< 4 else 0x10) ("1111-2222-3333-4444-5555-6666")) ∧
      (("Suite" : String) = "Suite" → (2 : Nat) = 2) ∧ ((12 : Nat) = 12 → 12 <<< 4 = 0xC0) :=
  generate_all_enumeration _ _ _ _ _ 2 rfl (by decide)
/-! ## Claim C9 -/

theorem pow16_2 : (16 : Nat) ^ 2 = 256 := by norm_num

theorem pow16_3 : (16 : Nat) ^ 3 = 4096 := by norm_num

theorem pow16_4 : (16 : Nat) ^ 4 = 65536 := by norm_num

theorem normalize_hwid_eq (input : String) :
    normalize_hwid input = if hwid_ok (normalize_target input) = true
      then some (normalize_target input) else none := rfl

/-- C9: the hardware id is uppercased; a 24-character uppercased input gets a
dash inserted every 4 characters; the result is accepted exactly when it fully
matches six dash-separated groups of four uppercase hex digits — in particular
"111122223333444455556666" normalizes to "1111-2222-3333-4444-5555-6666" — and
a rejected input makes the whole flow fail before any record is generated. -/
theorem hwid_normalization_spec :
    normalize_hwid ("111122223333444455556666") = some ("1111-2222-3333-4444-5555-6666") ∧
    (∀ input s, normalize_hwid input = some s →
      hwid_ok s = true ∧ s = normalize_target input) ∧
    (∀ input, hwid_ok (normalize_target input) = false → normalize_hwid input = none) ∧
    (∀ (k : DSAPrivateKey) (draws : Nat → SerialDraws) (edition : String) (version : Nat)
      (input : String), normalize_hwid input = none →
      main_flow k draws edition version input = none) := by
  refine ⟨by decide, ?_, ?_, ?_⟩
  · intro input s h
    rw [normalize_hwid_eq] at h
    by_cases hok : hwid_ok (normalize_target input) = true
    · rw [if_pos hok] at h
      injection h with h'
      subst h'
      exact ⟨hok, rfl⟩
    · rw [if_neg hok] at h
      cases h
  · intro input hfalse
    rw [normalize_hwid_eq, if_neg (by rw [hfalse]; exact Bool.false_ne_true)]
  · intro k draws edition version input h
    unfold main_flow
    rw [h]

theorem hwid_normalization_spec_witness :
    main_flow ⟨1024, fun _ => (0, 0)⟩ (fun _ => ⟨0, 0, 0, 0, 0⟩) ("Suite") 12 ("zz") = none :=
  hwid_normalization_spec.2.2.2 _ _ _ _ ("zz") (by decide)

/-! ## Claim C10 -/

theorem hexPad2_wide (n : Nat) (hlo : 0x1000 ≤ n) (hhi : n < 65536) :
    (hexPad 2 n).data.length = 4 := by
  show (List.replicate (2 - (hexChars n).length) '0' ++ hexChars n).length = 4
  rw [List.length_append, List.length_replicate]
  have hle := hexChars_len_le 4 n (by rw [pow16_4]; omega) (by omega)
  have hge := hexChars_len_ge 3 n (by rw [pow16_3]; omega)
  omega

/-- C10: for every version the CLI accepts (`choices=range(9, 13)`), the first
record's `id2 = version <<< 4` lies in 0x90..0xC0 and renders as exactly 2
uppercase hex digits under `{:02X}`; the fixed `id2 = 0x10` of all other
records also renders as 2 digits; and the `id1` values 0x8000..0x80FF render as
exactly 4 digits without truncation. -/
theorem id2_rendering_width (version : Nat) (hv : version ∈ version_choices) :
    0x90 ≤ version <<< 4 ∧ version <<< 4 ≤ 0xC0 ∧
    (hexPad 2 (version <<< 4)).data.length = 2 ∧
    (hexPad 2 0x10).data.length = 2 ∧
    (∀ i, 0x8000 ≤ i → i ≤ 0x80ff → (hexPad 2 i).data.length = 4) := by
  have he : version_choices = [9, 10, 11, 12] := rfl
  rw [he] at hv
  simp only [List.mem_cons, List.not_mem_nil, or_false] at hv
  have hb : 9 ≤ version ∧ version ≤ 12 := by
    rcases hv with rfl | rfl | rfl | rfl
    · exact ⟨by omega, by omega⟩
    · exact ⟨by omega, by omega⟩
    · exact ⟨by omega, by omega⟩
    · exact ⟨by omega, by omega⟩
  have hsl : version <<< 4 = version * 16 := by
    rw [Nat.shiftLeft_eq]
  refine ⟨by omega, by omega, ?_, ?_, ?_⟩
  · exact hexPad_len 2 _ (by rw [pow16_2]; omega) (by omega)
  · exact hexPad_len 2 0x10 (by norm_num) (by omega)
  · intro i h1 h2
    exact hexPad2_wide i (by omega) (by omega)

theorem id2_rendering_width_witness :
    0x90 ≤ 12 <<< 4 ∧ 12 <<< 4 ≤ 0xC0 ∧
    (hexPad 2 (12 <<< 4)).data.length = 2 ∧
    (hexPad 2 0x10).data.length = 2 ∧
    (∀ i, 0x8000 ≤ i → i ≤ 0x80ff → (hexPad 2 i).data.length = 4) :=
  id2_rendering_width 12 (by decide)
/-! ## Claim C1 -/

theorem pow16_40 : (2 : Nat) ^ 160 = 16 ^ 40 := by norm_num

theorem amended_pattern_core (serialStr : String) (id1 id2 r s : Nat)
    (hser : ∀ rest, runSerialPat (serialStr.data ++ rest) = some rest)
    (h1 : id1 < 256) (h2 : id2 < 256) (hr : r < 16 ^ 40) (hs : s < 16 ^ 40) :
    c1_amended_pattern (record_line serialStr id1 id2 (hexPad 40 r ++ hexPad 40 s)) = true := by
  have h1' : id1 < 16 ^ 2 := by rw [pow16_2]; omega
  have h2' : id2 < 16 ^ 2 := by rw [pow16_2]; omega
  unfold c1_amended_pattern record_line record_head
  simp only [String.data_append, List.append_assoc]
  rw [hser]
  simp only [Option.some_bind]
  rw [runLit_self]
  simp only [Option.some_bind]
  rw [runHex_pad 2 id1 _ h1' (by omega)]
  simp only [Option.some_bind]
  rw [runLit_self]
  simp only [Option.some_bind]
  rw [runHex_pad 2 id2 _ h2' (by omega)]
  simp only [Option.some_bind]
  rw [runLit_self]
  simp only [Option.some_bind]
  have hA := runHex_chunk (hexPad 40 r).data 40 (hexPad 40 s).data (hexPad_all_hex 40 r)
  rw [hexPad_len 40 r hr (by omega)] at hA
  norm_num at hA
  have hB := runHex_chunk (hexPad 40 s).data 0 [] (hexPad_all_hex 40 s)
  rw [hexPad_len 40 s hs (by omega), List.append_nil] at hB
  norm_num at hB
  rw [hA, hB]
  rfl

/-- C1 (amended): the final record line produced by `generate_single` is the
FIVE-field form `serial,id1(hex),id2(hex),Standard,PAYLOAD` — the literal token
"Standard" stays in the final line as a fourth field, with the signature
appended after it as a fifth — and for `id1 = 0x00`, `id2 = 0x10` the line
matches `^[0-9A-F]{4}(-[0-9A-F]{4}){5},[0-9A-F]{2},[0-9A-F]{2},Standard,[0-9A-F]{80}$`. -/
theorem generate_single_record_shape (k : DSAPrivateKey) (d : SerialDraws) (id1 id2 : Nat)
    (hwid : String) (hk : k.key_size = 1024)
    (hrs : ∀ m, (k.sign_rs m).1 < 2 ^ 160 ∧ (k.sign_rs m).2 < 2 ^ 160)
    (h0 : d.r0 < 65536) (h1 : d.r1 < 65536) (h2 : d.r2 < 65536) (h3 : d.r3 < 65536)
    (h4 : d.r4 < 65536) :
    generate_single k d id1 id2 hwid
      = some (random_serial d.r0 d.r1 d.r2 d.r3 d.r4 ++ "," ++ hexPad 2 id1 ++ "," ++
          hexPad 2 id2 ++ ",Standard," ++
          (hexPad 40 (k.sign_rs (generate_msg d id1 id2 hwid)).1 ++
            hexPad 40 (k.sign_rs (generate_msg d id1 id2 hwid)).2)) ∧
    (id1 = 0 → id2 = 0x10 →
      c1_amended_pattern ((generate_single k d id1 id2 hwid).getD "") = true) := by
  have hsome := generate_single_some k d id1 id2 hwid hk
  constructor
  · rw [hsome]
    rfl
  · intro hid1 hid2
    subst hid1
    subst hid2
    rw [hsome, Option.getD_some]
    show c1_amended_pattern (record_line (random_serial d.r0 d.r1 d.r2 d.r3 d.r4) 0 16
      (hexPad 40 (k.sign_rs (generate_msg d 0 16 hwid)).1 ++
        hexPad 40 (k.sign_rs (generate_msg d 0 16 hwid)).2)) = true
    apply amended_pattern_core
    · intro rest
      exact serial_then d.r0 d.r1 d.r2 d.r3 d.r4 rest h0 h1 h2 h3 h4
    · omega
    · omega
    · rw [← pow16_40]
      exact (hrs _).1
    · rw [← pow16_40]
      exact (hrs _).2

/-- C1 counterexample: with a 1024-bit key, a concrete oracle, concrete draws,
`id1 = 0x00` and `id2 = 0x10`, the final line `generate_single` produces does
NOT match the claim's four-field pattern
`^[0-9A-F]{4}(-[0-9A-F]{4}){5},[0-9A-F]{2},[0-9A-F]{2},[0-9A-F]{80}$`: the
literal "Standard" field stands between `id2` and the 80-hex signature. -/
theorem generate_single_four_field_counterexample :
    (generate_single ⟨1024, fun _ => (0, 0)⟩ ⟨0x3000, 1, 2, 3, 4⟩ 0 0x10
      ("1111-2222-3333-4444-5555-6666")).map c1_claim_pattern = some false := by decide

theorem generate_single_record_shape_witness :
    c1_amended_pattern ((generate_single ⟨1024, fun _ => (0, 0)⟩ ⟨0x3000, 1, 2, 3, 4⟩ 0 0x10
      ("1111-2222-3333-4444-5555-6666")).getD "") = true :=
  (generate_single_record_shape ⟨1024, fun _ => (0, 0)⟩ ⟨0x3000, 1, 2, 3, 4⟩ 0 0x10
    ("1111-2222-3333-4444-5555-6666") rfl (fun m => ⟨by norm_num, by norm_num⟩)
    (by norm_num) (by norm_num) (by norm_num) (by norm_num) (by norm_num)).2 rfl rfl
